import Mathlib

/-!
Verification of the fastsearch-mcp MFT search engine against its
natural-language specification.

The Rust sources are shallowly embedded: strings are lists of characters
(`List Char`), the `serde_json::Value` argument objects are a small `Json`
inductive, hash maps are modelled by association lists whose list order
stands for the (unspecified) iteration order of the Rust `HashMap`, and the
`regex` crate is modelled by a small matcher covering exactly the regex
fragment that `pattern_to_regex` emits (literals, escaped literals, `.`,
postfix `*`, the `^(?i)...$` wrapper and the bare `.*` special case).
All definitions are executable so that theorems on concrete inputs close by
`rfl` or `decide`.
-/

namespace FastSearch

/-! ## String helpers (List Char embeddings of the Rust `str` operations) -/

/-- Rust `str::to_lowercase`, restricted to ASCII case mapping (the source
only ever compares ASCII names; see spec section 9 on ASCII lower-casing). -/
def lowerL (s : List Char) : List Char := s.map Char.toLower

/-- Rust `str::to_uppercase`, ASCII fragment. -/
def upperL (s : List Char) : List Char := s.map Char.toUpper

/-- Rust `str::len`: the length of the UTF-8 encoding in bytes. -/
def utf8Len (s : List Char) : Nat := (s.map Char.utf8Size).sum

/-- Rust `str::contains(needle)`: substring occurrence test. -/
def containsSub (n : List Char) : List Char → Bool
  | [] => n.isEmpty
  | c :: t => n.isPrefixOf (c :: t) || containsSub n t

/-- Rust `str::strip_prefix`: remove a leading occurrence, or fail. -/
def dropStart : List Char → List Char → Option (List Char)
  | [], s => some s
  | _ :: _, [] => none
  | p :: ps, c :: cs => if p = c then dropStart ps cs else none

/-- Rust `str::strip_suffix`: remove a trailing occurrence, or fail. -/
def dropEnd (suf s : List Char) : Option (List Char) :=
  (dropStart suf.reverse s.reverse).map List.reverse

/-- Rust `str::parse::<u64>()` on ASCII digit strings (values used in the
sources stay far below 2^64, so `Nat` is adequate). -/
def parseDigits (s : List Char) : Option Nat :=
  if s.isEmpty then none
  else if s.all Char.isDigit then
    some (s.foldl (fun acc c => acc * 10 + (c.toNat - '0'.toNat)) 0)
  else none

/-- Rust `str::replace` with a one-character pattern: every occurrence of
the character is replaced, and replaced text is not rescanned (for a
one-character pattern that coincides with a pointwise expansion). -/
def replaceChar (c : Char) (rep : List Char) (s : List Char) : List Char :=
  (s.map (fun x => if x = c then rep else [x])).flatten

/-- Membership of a string in a set of strings (the Rust `HashSet<String>`
membership used by the search filters, modelled on a list). -/
def memL (x : List Char) (l : List (List Char)) : Bool :=
  l.any (fun y => decide (y = x))

/-! ## Regex model

`pattern_to_regex` in `search_engine.rs` produces either the bare regex
`.*` (for the patterns `*` and `*.*`) or a string `^(?i)body$` where `body`
consists of literal characters, backslash-escaped characters, `.`, and
postfix `*`.  The model below parses exactly that fragment and matches it
with the semantics of the `regex` crate: `(?i)` is case-insensitive
matching (ASCII fragment), `.` matches any character except a newline, and
an unanchored `.*` matches every haystack. -/

/-- The characters escaped by `regex::escape` (regex-syntax meta characters). -/
def isMetaChar (c : Char) : Bool :=
  c ∈ ['\\', '.', '+', '*', '?', '(', ')', '|', '[', ']',
       Char.ofNat 123, Char.ofNat 125, '^', '$', '#', '&', '-', '~']

/-- `regex::escape`: prefix every meta character with a backslash. -/
def regexEscape (s : List Char) : List Char :=
  (s.map (fun c => if isMetaChar c then ['\\', c] else [c])).flatten

/-- An atom of the emitted regex fragment: a literal or the dot class. -/
inductive RAtom where
  | lit : Char → RAtom
  | dot : RAtom
deriving DecidableEq, Repr

/-- An atom together with a flag for a postfix Kleene star. -/
structure RItem where
  atom : RAtom
  star : Bool
deriving DecidableEq, Repr

/-- Parse the body of an emitted regex into items; fails on any construct
outside the emitted fragment (unescaped meta characters, trailing
backslash, leading star). -/
def parseRegexItems : List Char → Option (List RItem)
  | [] => some []
  | ['\\'] => none
  | '\\' :: c :: '*' :: rest => (parseRegexItems rest).map (⟨.lit c, true⟩ :: ·)
  | '\\' :: c :: rest => (parseRegexItems rest).map (⟨.lit c, false⟩ :: ·)
  | '.' :: '*' :: rest => (parseRegexItems rest).map (⟨.dot, true⟩ :: ·)
  | '.' :: rest => (parseRegexItems rest).map (⟨.dot, false⟩ :: ·)
  | c :: '*' :: rest =>
      if isMetaChar c then none
      else (parseRegexItems rest).map (⟨.lit c, true⟩ :: ·)
  | c :: rest =>
      if isMetaChar c then none
      else (parseRegexItems rest).map (⟨.lit c, false⟩ :: ·)

/-- Case-insensitive single-character match of an atom. -/
def atomMatches (a : RAtom) (c : Char) : Bool :=
  match a with
  | .lit l => l.toLower = c.toLower
  | .dot => c ≠ '\n'

/-- Anchored matching of an item list against a haystack.  The fuel is a
bound on the recursion depth; every call decreases the combined length of
the item list and the haystack, so `items.length + s.length + 1` always
suffices (see `rmatch`). -/
def rmatchFuel : Nat → List RItem → List Char → Bool
  | 0, _, _ => false
  | _ + 1, [], [] => true
  | _ + 1, [], _ :: _ => false
  | _ + 1, ⟨_, false⟩ :: _, [] => false
  | f + 1, ⟨a, false⟩ :: items, c :: cs => atomMatches a c && rmatchFuel f items cs
  | f + 1, ⟨_, true⟩ :: items, [] => rmatchFuel f items []
  | f + 1, ⟨a, true⟩ :: items, c :: cs =>
      rmatchFuel f items (c :: cs) || (atomMatches a c && rmatchFuel f (⟨a, true⟩ :: items) cs)

/-- Anchored match of an item list against the whole haystack. -/
def rmatch (items : List RItem) (s : List Char) : Bool :=
  rmatchFuel (items.length + s.length + 1) items s

/-- A compiled regex as produced by the engine: either the bare `.*`
(which matches every haystack) or an anchored case-insensitive item list. -/
inductive CompiledRegex where
  | matchAll : CompiledRegex
  | anchored : List RItem → CompiledRegex
deriving DecidableEq, Repr

/-- `Regex::is_match` for a compiled regex. -/
def regexRun (r : CompiledRegex) (s : List Char) : Bool :=
  match r with
  | .matchAll => true
  | .anchored items => rmatch items s

/-- Strip the `^(?i)` prefix and `$` suffix the engine wraps bodies in. -/
def stripAnchorWrap (r : List Char) : Option (List Char) :=
  match r with
  | '^' :: '(' :: '?' :: 'i' :: ')' :: rest => dropEnd ['$'] rest
  | _ => none

/-- `Regex::new` on the strings the engine emits: `.*` compiles to the
match-everything regex, `^(?i)body$` to an anchored item list; anything
else (outside the emitted fragment) fails to compile in the model. -/
def regexCompile (r : List Char) : Option CompiledRegex :=
  if r = ['.', '*'] then some .matchAll
  else
    match stripAnchorWrap r with
    | some body => (parseRegexItems body).map .anchored
    | none => none

/-- `SearchEngine::pattern_to_regex` (search_engine.rs lines 462-481):
special-case `*` and `*.*` to `.*`; otherwise `regex::escape`, then
replace every `.` by `\..`, every `*` by `.*`, every `?` by `.`, and wrap
in `^(?i)...$`. -/
def patternToRegex (p : List Char) : List Char :=
  if p = ['*'] ∨ p = ['*', '.', '*'] then ['.', '*']
  else
    let escaped := regexEscape p
    let afterDots := replaceChar '.' ['\\', '.', '.'] escaped
    let afterStars := replaceChar '*' ['.', '*'] afterDots
    let afterHooks := replaceChar '?' ['.'] afterStars
    ['^', '(', '?', 'i', ')'] ++ afterHooks ++ ['$']

/-- Glob matching as the engine performs it: translate the pattern and run
the compiled regex; `none` when the translated regex does not compile. -/
def globIsMatch (p s : List Char) : Option Bool :=
  (regexCompile (patternToRegex p)).map (fun r => regexRun r s)

/-! ## JSON argument objects

The service receives tool arguments as a `serde_json::Value`; the model
mirrors exactly the accessors the engine uses: indexing (`args["k"]`,
which yields `Null` on a missing key or a non-object), `as_str`,
`as_u64` (numbers are modelled as naturals, the only values `as_u64`
accepts), and `as_array`. -/

inductive Json where
  | null : Json
  | bool : Bool → Json
  | num : Nat → Json
  | str : List Char → Json
  | arr : List Json → Json
  | obj : List (List Char × Json) → Json

/-- `Value::index` for a string key: field lookup on objects, `Null`
otherwise. -/
def jIndex (v : Json) (k : List Char) : Json :=
  match v with
  | .obj fields =>
      match fields.find? (fun p => decide (p.1 = k)) with
      | some p => p.2
      | none => .null
  | _ => .null

/-- `Value::as_str`. -/
def asStr : Json → Option (List Char)
  | .str s => some s
  | _ => none

/-- `Value::as_u64`. -/
def asU64 : Json → Option Nat
  | .num n => some n
  | _ => none

/-- `Value::as_array`. -/
def asArr : Json → Option (List Json)
  | .arr l => some l
  | _ => none

/-! ## Document types (file_types.rs) -/

/-- The `DocumentType` enum of file_types.rs. -/
inductive DocumentType where
  | text | code | image | spreadsheet | presentation | archive | audio | video | pdf
deriving DecidableEq, Repr

/-- Convenience: a list of string literals as character lists. -/
def strs (l : List String) : List (List Char) := l.map String.data

/-- The `EXTENSION_MAP` of file_types.rs (lines 22-80), entry by entry and
in source order; a `HashSet` in the source, used only through membership. -/
def docTypeExtensions (t : DocumentType) : List (List Char) :=
  match t with
  | .text => strs ["txt", "md", "markdown", "rtf", "odt", "doc", "docx", "pdf", "tex", "log"]
  | .code => strs ["rs", "py", "js", "ts", "jsx", "tsx", "java", "c", "cpp", "h", "hpp", "cs",
      "go", "rb", "php", "swift", "kt", "scala", "m", "mm", "sh", "bash", "ps1", "bat",
      "html", "css", "scss", "sass", "less", "json", "yaml", "toml", "xml", "sql",
      "ini", "cfg", "conf", "env", "gitignore", "dockerfile", "makefile",
      "lua", "perl", "r", "sql", "vue", "svelte"]
  | .image => strs ["jpg", "jpeg", "png", "gif", "bmp", "webp", "tiff", "tif", "svg", "ico", "heic"]
  | .spreadsheet => strs ["xls", "xlsx", "xlsm", "ods", "csv", "tsv"]
  | .presentation => strs ["ppt", "pptx", "odp", "key"]
  | .archive => strs ["zip", "rar", "7z", "tar", "gz", "bz2", "xz", "zst", "lzma", "lz4", "lzh", "cab"]
  | .audio => strs ["mp3", "wav", "ogg", "flac", "aac", "m4a", "wma", "aiff", "aif", "midi", "mid"]
  | .video => strs ["mp4", "avi", "mkv", "mov", "wmv", "flv", "webm", "m4v", "mpeg", "mpg", "3gp"]
  | .pdf => strs ["pdf"]

/-- `parse_document_type` of file_types.rs (lines 103-116). -/
def parseDocumentType (s : List Char) : Option DocumentType :=
  let l := lowerL s
  if l = "text".data then some .text
  else if l = "code".data then some .code
  else if l = "image".data then some .image
  else if l = "spreadsheet".data then some .spreadsheet
  else if l = "presentation".data then some .presentation
  else if l = "archive".data then some .archive
  else if l = "audio".data then some .audio
  else if l = "video".data then some .video
  else if l = "pdf".data then some .pdf
  else none

/-- `extension_matches_doc_types` of file_types.rs (lines 84-100): an empty
filter matches everything, otherwise the lower-cased extension must belong
to one of the listed document types. -/
def extensionMatchesDocTypes (ext : List Char) (docTypes : List DocumentType) : Bool :=
  if docTypes.isEmpty then true
  else docTypes.any (fun t => memL (lowerL ext) (docTypeExtensions t))

/-! ## File entries and the cached search (search_engine.rs `fast_search`) -/

/-- The `FileEntry` of mft_cache.rs (lines 224-231), the struct the search
engine consumes (the id is the MFT record number). -/
structure FileEntry where
  id : Nat
  name : List Char
  path : List Char
  size : Nat
  isDirectory : Bool
  extension : Option (List Char)
deriving DecidableEq, Repr

/-- Rust `str::trim_start_matches('.')`: drop every leading dot. -/
def trimLeadingDots : List Char → List Char
  | '.' :: r => trimLeadingDots r
  | s => s

/-- fast_search line 252: `args["pattern"].as_str().unwrap_or("*")`. -/
def parsedPattern (args : Json) : List Char :=
  (asStr (jIndex args "pattern".data)).getD ['*']

/-- fast_search line 253: `args["path"].as_str().unwrap_or("").to_lowercase()`. -/
def parsedPathFilter (args : Json) : List Char :=
  lowerL ((asStr (jIndex args "path".data)).getD [])

/-- fast_search line 254: `args["drive"].as_str().unwrap_or("C").to_uppercase()`. -/
def parsedDrive (args : Json) : List Char :=
  upperL ((asStr (jIndex args "drive".data)).getD ['C'])

/-- fast_search line 255: `args["max_results"].as_u64().unwrap_or(1000)`. -/
def parsedMaxResults (args : Json) : Nat :=
  (asU64 (jIndex args "max_results".data)).getD 1000

/-- fast_search lines 258-260: the document-type filter. -/
def parsedDocType (args : Json) : Option DocumentType :=
  (asStr (jIndex args "doc_type".data)).bind parseDocumentType

/-- fast_search lines 263-270: the explicit extension set, each entry with
leading dots stripped and lower-cased. -/
def parsedExtensions (args : Json) : Option (List (List Char)) :=
  (asArr (jIndex args "extensions".data)).map
    (fun arr => (arr.filterMap asStr).map (fun s => lowerL (trimLeadingDots s)))

/-- The filter chain of the fast_search loop (lines 294-325): path filter,
pattern filter, extension filter, document-type filter, in source order. -/
def entryPass (pathFilter : List Char) (rx : CompiledRegex)
    (exts : Option (List (List Char))) (docType : Option DocumentType)
    (f : FileEntry) : Bool :=
  (pathFilter.isEmpty || containsSub pathFilter (lowerL f.path))
  && regexRun rx f.name
  && (match exts with
      | some es =>
          (match f.extension with
           | some e => memL e es
           | none => es.isEmpty)
      | none => true)
  && (match docType with
      | some t =>
          (match f.extension with
           | some e => memL e (docTypeExtensions t)
           | none => false)
      | none => true)

/-- The accumulation loop of fast_search (lines 290-335): push each passing
entry and break as soon as the running count reaches `maxResults`. -/
def searchLoop (pass : FileEntry → Bool) (maxResults : Nat) :
    List FileEntry → Nat → List FileEntry
  | [], _ => []
  | f :: rest, count =>
      if pass f then
        if maxResults ≤ count + 1 then [f]
        else f :: searchLoop pass maxResults rest (count + 1)
      else searchLoop pass maxResults rest count

/-- `SearchEngine::fast_search` (search_engine.rs lines 251-375) on one
drive's cache.  The `files` argument is the iteration sequence of the
cache's by-id `HashMap` (whose order the `HashMap` leaves unspecified);
volume handling and result formatting are I/O and presentation and are
not modelled.  The only failure path is regex compilation. -/
def fastSearch (args : Json) (files : List FileEntry) :
    Except (List Char) (List FileEntry) :=
  match regexCompile (patternToRegex (parsedPattern args)) with
  | none => .error "Invalid search pattern".data
  | some rx =>
      .ok (searchLoop
        (entryPass (parsedPathFilter args) rx (parsedExtensions args) (parsedDocType args))
        (parsedMaxResults args) files 0)

/-- Truth value of an `Except` succeeding. -/
def exceptIsOk {ε α : Type} : Except ε α → Bool
  | .ok _ => true
  | .error _ => false

/-! ## Bridge-side query validation (bridge validation.rs) -/

/-- The pattern portion of `validate_search_args` (validation.rs lines
4-21): a missing pattern, an empty pattern, a pattern whose UTF-8 byte
length (`str::len`) exceeds 1000, or a pattern containing `..` (or the
redundant `\..\` and `/../` variants) is rejected; the checks run in
source order. -/
def validatePattern (p : Option (List Char)) : Except (List Char) Unit :=
  match p with
  | none => .error "Pattern is required".data
  | some pat =>
      if pat.isEmpty then .error "Pattern cannot be empty".data
      else if 1000 < utf8Len pat then
        .error "Pattern too long (max 1000 characters)".data
      else if containsSub "..".data pat || containsSub "\\..\\".data pat
           || containsSub "/../".data pat then
        .error "Path traversal patterns not allowed".data
      else .ok ()

/-! ## Memory governor (mft_cache.rs `check_memory_limits`) -/

/-- The error kind the specification assigns to a tripped memory governor;
the source never constructs it (every path of `check_memory_limits`
returns `Ok`). -/
inductive MemError where
  | outOfMemory : MemError
deriving DecidableEq, Repr

/-- Outcome of one governor check: whether a high-usage warning was
logged, whether the cache was cleared, and the returned result (`none`
standing for `Ok(())`). -/
structure MemCheckOutcome where
  warned : Bool
  cleared : Bool
  ret : Option MemError
deriving DecidableEq, Repr

/-- `MftCache::check_memory_limits` (mft_cache.rs lines 664-702).
`filesProcessed` is the pre-increment counter returned by `fetch_add`,
`memcheckEvery` the configured `max_files_before_memcheck` (positive, the
source would panic on a zero modulus), and `maxMemoryUsage` the configured
fraction; the sampled memory is given as total and free byte counts and
the floating-point percentage arithmetic is modelled exactly over ℚ. -/
def checkMemoryLimits (filesProcessed memcheckEvery : Nat) (maxMemoryUsage : ℚ)
    (totalMemory freeMemory : Nat) : MemCheckOutcome :=
  if filesProcessed % memcheckEvery ≠ 0 then ⟨false, false, none⟩
  else
    let usedMemory := totalMemory - freeMemory
    let pct : ℚ := (usedMemory : ℚ) / (totalMemory : ℚ) * 100
    if pct > maxMemoryUsage * 100 then
      if pct > maxMemoryUsage * (11 / 10) * 100 then ⟨true, true, none⟩
      else ⟨true, false, none⟩
    else ⟨false, false, none⟩

/-! ## The index store and its membership invariant

The cache holds four maps (mft_cache.rs lines 161-164): `files` by id,
`extension_index` and `name_index` mapping a string key to a vector of
ids, and `path_index` mapping a path to an id.  The `HashMap`s are
modelled as association lists; insertion replaces the binding of an
existing key. -/

/-- `HashMap::insert`: bind `k` to `v`, dropping any previous binding. -/
def insertKV {κ α : Type} [DecidableEq κ] (k : κ) (v : α)
    (l : List (κ × α)) : List (κ × α) :=
  (k, v) :: l.filter (fun p => decide (p.1 ≠ k))

/-- First binding of a key in an association list. -/
def lookupKV {κ α : Type} [DecidableEq κ] : List (κ × α) → κ → Option α
  | [], _ => none
  | (k, v) :: t, q => if k = q then some v else lookupKV t q

/-- `map.entry(k).or_default().push(id)`: append `id` to the vector bound
to `k`, creating the binding if absent. -/
def pushIdx {κ : Type} [DecidableEq κ] (k : κ) (id : Nat)
    (l : List (κ × List Nat)) : List (κ × List Nat) :=
  match lookupKV l k with
  | some ids => insertKV k (ids ++ [id]) l
  | none => (k, [id]) :: l

/-- Key membership in an association list. -/
def hasKey {κ α : Type} [DecidableEq κ] (l : List (κ × α)) (k : κ) : Bool :=
  l.any (fun p => decide (p.1 = k))

/-- The four maps of `MftCache`. -/
structure Store where
  files : List (Nat × FileEntry)
  extIdx : List (List Char × List Nat)
  nameIdx : List (List Char × List Nat)
  pathIdx : List (List Char × Nat)

/-- Every id stored in a secondary index's vectors. -/
def idxIds (l : List (List Char × List Nat)) : List Nat :=
  (l.map (fun p => p.2)).flatten

/-- The index-membership invariant: every id appearing in the extension,
name, or path index is a key of the primary by-id map. -/
def storeInv (s : Store) : Bool :=
  (idxIds s.extIdx).all (fun id => hasKey s.files id)
  && (idxIds s.nameIdx).all (fun id => hasKey s.files id)
  && (s.pathIdx.map (fun p => p.2)).all (fun id => hasKey s.files id)

/-- The store all maps of which are empty (`MftCache::clear`,
mft_cache.rs lines 449-466, clears all four in place). -/
def clearStore (_ : Store) : Store := ⟨[], [], [], []⟩

/-- `Path::extension`/`file_stem` on a bare file name: split at the last
dot, except that a dot leading the name does not start an extension. -/
def splitLastDotAux : List Char → Option (List Char × List Char)
  | [] => none
  | c :: cs =>
      match splitLastDotAux cs with
      | some (p, q) => some (c :: p, q)
      | none => if c = '.' then some ([], cs) else none

/-- Split a file name into stem and extension at its last dot (never at a
single leading dot). -/
def extSplit (n : List Char) : Option (List Char × List Char) :=
  match n with
  | [] => none
  | c :: rest => (splitLastDotAux rest).map (fun p => (c :: p.1, p.2))

/-- `Path::extension` of a bare file name. -/
def extOfName (n : List Char) : Option (List Char) :=
  (extSplit n).map (fun p => p.2)

/-- `Path::file_stem` (and `Path::with_extension("")`) of a bare file
name. -/
def stemOfName (n : List Char) : List Char :=
  match extSplit n with
  | some p => p.1
  | none => n

/-- One iteration of the `load_cache` entry loop (cache_persistence.rs
lines 136-157): insert the entry into `files`, index the non-empty
lower-cased extension of its name, its lower-cased name, and its path. -/
def loadStep (st : Store) (p : Nat × FileEntry) : Store :=
  let id := p.1
  let entry := p.2
  let files := insertKV id entry st.files
  let extIdx :=
    match extOfName entry.name with
    | some e =>
        let el := lowerL e
        if el.isEmpty then st.extIdx else pushIdx el id st.extIdx
    | none => st.extIdx
  let nameIdx := pushIdx (lowerL entry.name) id st.nameIdx
  let pathIdx := insertKV entry.path id st.pathIdx
  ⟨files, extIdx, nameIdx, pathIdx⟩

/-- The `load_cache` entry loop over the whole deserialized stream,
starting from the fresh (empty) cache `MftCache::with_config` builds. -/
def loadCacheStore (entries : List (Nat × FileEntry)) : Store :=
  entries.foldl loadStep ⟨[], [], [], []⟩

/-- Modelled from the spec: the eight-argument `process_directory` that
`rebuild_sequential` (mft_cache.rs lines 950-975) invokes to populate its
staging maps is absent from the source (the file retains only a
channel-based variant with a different signature).  Per spec section 4.4
step 3, each processed entry is added to the staged `by_id`, `by_name_ci`,
`by_extension` (when an extension is present) and `by_full_path_ci`
maps. -/
def rebuildStep (st : Store) (e : FileEntry) : Store :=
  ⟨insertKV e.id e st.files,
   (match e.extension with
    | some x => pushIdx x e.id st.extIdx
    | none => st.extIdx),
   pushIdx (lowerL e.name) e.id st.nameIdx,
   insertKV (lowerL e.path) e.id st.pathIdx⟩

/-- `rebuild_sequential`: stage the four maps over all parsed entries and
swap them into the cache in one step (the swap preserves the staged
contents verbatim). -/
def rebuildSequentialStore (entries : List FileEntry) : Store :=
  entries.foldl rebuildStep ⟨[], [], [], []⟩

/-! ## Cache version discovery (cache_persistence.rs `find_cache_files`) -/

/-- Stable insertion placing `x` after every element with a key at least
as large (`sort_by_key(Reverse(ts))`, descending and stable). -/
def insertByDesc {α : Type} (key : α → Nat) (x : α) : List α → List α
  | [] => [x]
  | y :: ys => if key x ≤ key y then y :: insertByDesc key x ys else x :: y :: ys

/-- Sort descending by key (models `sort_by_key` with `Reverse`). -/
def sortByDesc {α : Type} (key : α → Nat) : List α → List α
  | [] => []
  | x :: xs => insertByDesc key x (sortByDesc key xs)

/-- `find_cache_files` (cache_persistence.rs lines 171-210) over the name
listing of the cache directory: for every `.meta` file whose stem also
names an existing file (`path.with_extension("")`), parse a timestamp by
stripping the prefix `mft_cache_` and the suffix `.meta` from the stem;
sort the collected triples newest first; the final `filter_map` passes
every candidate through unchanged (the drive-letter check is a TODO in
the source). -/
def findCacheFiles (listing : List (List Char)) : List (List Char × List Char) :=
  let collected := listing.filterMap (fun path =>
    match extOfName path with
    | some e =>
        if e = "meta".data then
          let stem := stemOfName path
          if listing.any (fun q => decide (q = stem)) then
            match ((dropStart "mft_cache_".data stem).bind
                (fun s => dropEnd ".meta".data s)).bind parseDigits with
            | some ts => some (stem, path, ts)
            | none => none
          else none
        else none
    | none => none)
  (sortByDesc (fun t => t.2.2) collected).map (fun t => (t.1, t.2.1))

/-- `load_cache` (cache_persistence.rs lines 103-112), selection step: an
empty candidate list means no cache is loaded; otherwise the head of the
list is the version read. -/
def loadCacheSelection (listing : List (List Char)) : Option (List Char × List Char) :=
  match findCacheFiles listing with
  | [] => none
  | c :: _ => some c

/-! ## Concrete instances used by the claim theorems -/

/-- A log file entry with a given MFT id. -/
def logEntry (id : Nat) : FileEntry :=
  ⟨id, "f.log".data, "f.log".data, 0, false, some "log".data⟩

/-- A glob query for every name with `max_results` 3. -/
def argsStarThree : Json :=
  Json.obj [("pattern".data, Json.str "*".data), ("max_results".data, Json.num 3)]

/-- A store iteration sequence in descending id order (one admissible
iteration order of the by-id `HashMap` over ids 5, 7, 11, 20). -/
def storeDesc : List FileEntry := [logEntry 20, logEntry 11, logEntry 7, logEntry 5]

/-- The same store contents iterated in ascending id order. -/
def storeAsc : List FileEntry := [logEntry 5, logEntry 7, logEntry 11, logEntry 20]

/-- A file whose extension `xyz` is outside every document class. -/
def xyzEntry : FileEntry := ⟨1, "m.xyz".data, "m.xyz".data, 0, false, some "xyz".data⟩

/-- A query giving both `doc_type: "code"` and `extensions: ["xyz"]`. -/
def argsCodeXyz : Json :=
  Json.obj [("pattern".data, Json.str "*".data),
    ("doc_type".data, Json.str "code".data),
    ("extensions".data, Json.arr [Json.str "xyz".data])]

/-- A cache directory holding two complete persisted versions for the
drive, exactly as `save_cache` names them. -/
def cacheListing : List (List Char) :=
  strs ["mft_cache_100.bin", "mft_cache_100.meta",
        "mft_cache_200.bin", "mft_cache_200.meta"]

/-- A 334-character pattern whose UTF-8 encoding is 1002 bytes. -/
def widePattern : List Char := List.replicate 334 '€'

/-- An arguments object with no fields at all. -/
def argsNone : Json := Json.obj []

/-- An arguments object whose pattern is the path-traversal string. -/
def argsTraversal : Json := Json.obj [("pattern".data, Json.str ('.' :: '.' :: []))]

/-- An arguments object whose pattern is the empty string. -/
def argsEmptyPat : Json := Json.obj [("pattern".data, Json.str [])]

/-! ## Helper lemmas -/

/-- The fast_search loop with a running count below the bound collects the
first `maxResults - count` passing entries in iteration order. -/
theorem searchLoop_take_eq (pass : FileEntry → Bool) (maxR : Nat) :
    ∀ (l : List FileEntry) (count : Nat), count < maxR →
      searchLoop pass maxR l count = (l.filter pass).take (maxR - count)
  | [], count, _ => by simp [searchLoop]
  | f :: rest, count, h => by
      by_cases hp : pass f
      · by_cases hb : maxR ≤ count + 1
        · have hm : maxR - count = 1 := by omega
          simp [searchLoop, hp, hb, List.filter_cons, hm]
        · have h1 : count + 1 < maxR := by omega
          have ih := searchLoop_take_eq pass maxR rest (count + 1) h1
          have hm : maxR - count = (maxR - (count + 1)) + 1 := by omega
          simp [searchLoop, hp, hb, List.filter_cons, hm, List.take_succ_cons, ih]
      · have ih := searchLoop_take_eq pass maxR rest count h
        simp [searchLoop, hp, List.filter_cons, ih]

/-- Unfolding of the membership invariant into its three quantified parts. -/
theorem storeInv_eq_true_iff (s : Store) : storeInv s = true ↔
    (∀ x ∈ idxIds s.extIdx, hasKey s.files x = true) ∧
    (∀ x ∈ idxIds s.nameIdx, hasKey s.files x = true) ∧
    (∀ x ∈ s.pathIdx.map (fun p => p.2), hasKey s.files x = true) := by
  simp [storeInv, List.all_eq_true, Bool.and_eq_true, and_assoc]

/-- Keys survive a `HashMap` insertion. -/
theorem hasKey_insertKV_of {κ α : Type} [DecidableEq κ] {l : List (κ × α)} {k : κ}
    (k0 : κ) (v : α) (h : hasKey l k = true) : hasKey (insertKV k0 v l) k = true := by
  unfold hasKey insertKV at *
  simp only [List.any_eq_true, decide_eq_true_eq] at *
  obtain ⟨p, hp, he⟩ := h
  by_cases hk : k = k0
  · exact ⟨(k0, v), List.mem_cons_self _ _, hk.symm⟩
  · refine ⟨p, List.mem_cons_of_mem _ ?_, he⟩
    simp [List.mem_filter, hp, he, hk]

/-- The inserted key is a key of the result. -/
theorem hasKey_insertKV_self {κ α : Type} [DecidableEq κ] (l : List (κ × α)) (k : κ) (v : α) :
    hasKey (insertKV k v l) k = true := by
  unfold hasKey insertKV
  simp

/-- A successful association-list lookup exhibits a member. -/
theorem lookupKV_mem {κ α : Type} [DecidableEq κ] :
    ∀ {l : List (κ × α)} {q : κ} {v : α}, lookupKV l q = some v → (q, v) ∈ l
  | [], _, _, h => by simp [lookupKV] at h
  | (k, w) :: t, q, v, h => by
      by_cases hk : k = q
      · subst hk
        simp [lookupKV] at h
        subst h
        exact List.mem_cons_self _ _
      · simp [lookupKV, hk] at h
        exact List.mem_cons_of_mem _ (lookupKV_mem h)

/-- Membership in the flattened id vectors of a secondary index. -/
theorem mem_idxIds_iff (l : List (List Char × List Nat)) (x : Nat) :
    x ∈ idxIds l ↔ ∃ p ∈ l, x ∈ p.2 := by
  simp only [idxIds, List.mem_flatten, List.mem_map]
  constructor
  · rintro ⟨s, ⟨p, hp, rfl⟩, hx⟩
    exact ⟨p, hp, hx⟩
  · rintro ⟨p, hp, hx⟩
    exact ⟨p.2, ⟨p, hp, rfl⟩, hx⟩

/-- Ids of a secondary index after a push are the pushed id or old ids. -/
theorem mem_idxIds_pushIdx {k : List Char} {id x : Nat} {l : List (List Char × List Nat)}
    (hx : x ∈ idxIds (pushIdx k id l)) : x = id ∨ x ∈ idxIds l := by
  unfold pushIdx at hx
  cases hlk : lookupKV l k with
  | some ids =>
      rw [hlk] at hx
      unfold insertKV at hx
      rw [mem_idxIds_iff] at hx
      obtain ⟨p, hp, hxp⟩ := hx
      rcases List.mem_cons.mp hp with he | ht
      · subst he
        rcases List.mem_append.mp hxp with hin | hone
        · exact Or.inr ((mem_idxIds_iff l x).mpr ⟨(k, ids), lookupKV_mem hlk, hin⟩)
        · simp at hone
          exact Or.inl hone
      · exact Or.inr ((mem_idxIds_iff l x).mpr ⟨p, (List.mem_filter.mp ht).1, hxp⟩)
  | none =>
      rw [hlk] at hx
      rw [mem_idxIds_iff] at hx
      obtain ⟨p, hp, hxp⟩ := hx
      rcases List.mem_cons.mp hp with he | ht
      · subst he
        simp at hxp
        exact Or.inl hxp
      · exact Or.inr ((mem_idxIds_iff l x).mpr ⟨p, ht, hxp⟩)

/-- Values of the path index after an insertion are the new id or old
values. -/
theorem mem_vals_insertKV {κ α : Type} [DecidableEq κ] {l : List (κ × α)} {k : κ} {v x : α}
    (hx : x ∈ (insertKV k v l).map (fun p => p.2)) : x = v ∨ x ∈ l.map (fun p => p.2) := by
  unfold insertKV at hx
  simp only [List.map_cons, List.mem_cons, List.mem_map, List.mem_filter] at hx
  rcases hx with he | ⟨p, ⟨hp, _⟩, hpe⟩
  · exact Or.inl he
  · exact Or.inr (List.mem_map.mpr ⟨p, hp, hpe⟩)

/-- Core preservation step: inserting an entry under id into the primary
map, pushing the id into the name index and the path index, and replacing
the extension index by anything whose ids are the new id or old ids,
preserves the membership invariant. -/
theorem storeInv_step (st : Store) (h : storeInv st = true) (id : Nat) (entry : FileEntry)
    (extIdx2 : List (List Char × List Nat))
    (hext : ∀ x ∈ idxIds extIdx2, x = id ∨ x ∈ idxIds st.extIdx)
    (nameKey pathKey : List Char) :
    storeInv ⟨insertKV id entry st.files, extIdx2, pushIdx nameKey id st.nameIdx,
      insertKV pathKey id st.pathIdx⟩ = true := by
  rw [storeInv_eq_true_iff] at h ⊢
  obtain ⟨h1, h2, h3⟩ := h
  refine ⟨?_, ?_, ?_⟩
  · intro x hx
    rcases hext x hx with rfl | hold
    · exact hasKey_insertKV_self _ _ _
    · exact hasKey_insertKV_of id entry (h1 x hold)
  · intro x hx
    rcases mem_idxIds_pushIdx hx with rfl | hold
    · exact hasKey_insertKV_self _ _ _
    · exact hasKey_insertKV_of id entry (h2 x hold)
  · intro x hx
    rcases mem_vals_insertKV hx with rfl | hold
    · exact hasKey_insertKV_self _ _ _
    · exact hasKey_insertKV_of id entry (h3 x hold)

/-- One `load_cache` loop iteration preserves the membership invariant. -/
theorem storeInv_loadStep (st : Store) (p : Nat × FileEntry) (h : storeInv st = true) :
    storeInv (loadStep st p) = true := by
  cases hx : extOfName p.2.name with
  | none =>
      have heq : loadStep st p = ⟨insertKV p.1 p.2 st.files, st.extIdx,
          pushIdx (lowerL p.2.name) p.1 st.nameIdx, insertKV p.2.path p.1 st.pathIdx⟩ := by
        simp [loadStep, hx]
      rw [heq]
      exact storeInv_step st h p.1 p.2 st.extIdx (fun x hx => Or.inr hx) _ _
  | some e =>
      cases he : (lowerL e).isEmpty with
      | true =>
          have heq : loadStep st p = ⟨insertKV p.1 p.2 st.files, st.extIdx,
              pushIdx (lowerL p.2.name) p.1 st.nameIdx, insertKV p.2.path p.1 st.pathIdx⟩ := by
            simp [loadStep, hx, he]
          rw [heq]
          exact storeInv_step st h p.1 p.2 st.extIdx (fun x hx => Or.inr hx) _ _
      | false =>
          have heq : loadStep st p = ⟨insertKV p.1 p.2 st.files,
              pushIdx (lowerL e) p.1 st.extIdx,
              pushIdx (lowerL p.2.name) p.1 st.nameIdx, insertKV p.2.path p.1 st.pathIdx⟩ := by
            simp [loadStep, hx, he]
          rw [heq]
          exact storeInv_step st h p.1 p.2 (pushIdx (lowerL e) p.1 st.extIdx)
            (fun x hx => mem_idxIds_pushIdx hx) _ _

/-- One builder staging step preserves the membership invariant. -/
theorem storeInv_rebuildStep (st : Store) (e : FileEntry) (h : storeInv st = true) :
    storeInv (rebuildStep st e) = true := by
  cases hx : e.extension with
  | none =>
      have heq : rebuildStep st e = ⟨insertKV e.id e st.files, st.extIdx,
          pushIdx (lowerL e.name) e.id st.nameIdx, insertKV (lowerL e.path) e.id st.pathIdx⟩ := by
        simp [rebuildStep, hx]
      rw [heq]
      exact storeInv_step st h e.id e st.extIdx (fun x hx => Or.inr hx) _ _
  | some x =>
      have heq : rebuildStep st e = ⟨insertKV e.id e st.files,
          pushIdx x e.id st.extIdx,
          pushIdx (lowerL e.name) e.id st.nameIdx, insertKV (lowerL e.path) e.id st.pathIdx⟩ := by
        simp [rebuildStep, hx]
      rw [heq]
      exact storeInv_step st h e.id e (pushIdx x e.id st.extIdx)
        (fun y hy => mem_idxIds_pushIdx hy) _ _

/-- The invariant is preserved over the whole load loop. -/
theorem storeInv_foldl_load :
    ∀ (es : List (Nat × FileEntry)) (st : Store), storeInv st = true →
      storeInv (es.foldl loadStep st) = true
  | [], _, h => h
  | p :: rest, st, h => storeInv_foldl_load rest _ (storeInv_loadStep st p h)

/-- The invariant is preserved over the whole staging loop. -/
theorem storeInv_foldl_rebuild :
    ∀ (es : List FileEntry) (st : Store), storeInv st = true →
      storeInv (es.foldl rebuildStep st) = true
  | [], _, h => h
  | e :: rest, st, h => storeInv_foldl_rebuild rest _ (storeInv_rebuildStep st e h)

/-- Substring containment coincides with list infix. -/
theorem containsSub_iff (n : List Char) : ∀ (h : List Char), containsSub n h = true ↔ n <:+: h
  | [] => by
      simp only [containsSub, List.isEmpty_iff]
      exact ⟨fun hn => hn ▸ List.infix_rfl, fun hn => List.infix_nil.mp hn⟩
  | c :: t => by
      simp only [containsSub, Bool.or_eq_true, List.isPrefixOf_iff_prefix, containsSub_iff n t]
      exact List.infix_cons_iff.symm

/-! ## Claim theorems -/

/-- C1.  The claim states that for a file name without glob
metacharacters the translated regex matches exactly the name itself,
case-insensitively.  The code refutes it: `pattern_to_regex` applies
`regex::escape` and then replaces every `.` by `\..`, which corrupts the
already-escaped dot of `a.b` into `\\..`; the emitted regex is
`^(?i)a\\..b$` and it does not match `a.b`. -/
theorem c1_pattern_to_regex_dot_corruption :
    patternToRegex "a.b".data = "^(?i)a\\\\..b$".data ∧
      globIsMatch "a.b".data "a.b".data = some false :=
  ⟨rfl, rfl⟩

/-- C2, counterexample.  The claim states the returned results are the
matching entries with the smallest ids in increasing order.  The by-id
map is a `HashMap` with unspecified iteration order; for the admissible
iteration sequence 20, 11, 7, 5 the query `*` with `max_results` 3
returns ids 20, 11, 7, not 5, 7, 11. -/
theorem c2_iteration_order_counterexample :
    fastSearch argsStarThree storeDesc =
      Except.ok [logEntry 20, logEntry 11, logEntry 7] ∧
    List.map FileEntry.id [logEntry 20, logEntry 11, logEntry 7] ≠ [5, 7, 11] :=
  ⟨rfl, by decide⟩

/-- C2, amended.  A successful search returns exactly the first
`max_results` entries passing all filters, in the iteration order of the
by-id map (which the `HashMap` leaves unspecified); when that order is
ascending by id this yields the smallest ids in increasing order. -/
theorem c2_results_are_first_matches
    (args : Json) (files : List FileEntry) (n : Nat) (rx : CompiledRegex)
    (r : List FileEntry)
    (hn : parsedMaxResults args = n) (hpos : 1 ≤ n)
    (hrx : regexCompile (patternToRegex (parsedPattern args)) = some rx)
    (hr : fastSearch args files = Except.ok r) :
    r = (files.filter (entryPass (parsedPathFilter args) rx (parsedExtensions args)
      (parsedDocType args))).take n := by
  subst hn
  unfold fastSearch at hr
  rw [hrx] at hr
  injection hr with h
  subst h
  have hchar := searchLoop_take_eq
    (entryPass (parsedPathFilter args) rx (parsedExtensions args) (parsedDocType args))
    (parsedMaxResults args) files 0 (by omega)
  rw [Nat.sub_zero] at hchar
  exact hchar

/-- C2, witness.  With the ascending iteration order 5, 7, 11, 20 and
`max_results` 3, the query `*` returns ids 5, 7, 11. -/
theorem c2_results_are_first_matches_witness :
    [logEntry 5, logEntry 7, logEntry 11] =
      (storeAsc.filter (entryPass (parsedPathFilter argsStarThree) CompiledRegex.matchAll
        (parsedExtensions argsStarThree) (parsedDocType argsStarThree))).take 3 :=
  c2_results_are_first_matches argsStarThree storeAsc 3 CompiledRegex.matchAll
    [logEntry 5, logEntry 7, logEntry 11] rfl (by decide) rfl rfl

/-- C3.  The claim (and the tool's own input schema) state that an
explicit `extensions` set overrides `doc_class`.  The code refutes it:
the loop applies the document-type filter even when `extensions` is
given, so a file with extension `xyz` — a member of the requested
extension set but of no document class — is filtered out instead of
returned. -/
theorem c3_doc_type_filter_not_overridden :
    parsedExtensions argsCodeXyz = some ["xyz".data] ∧
    xyzEntry.extension = some "xyz".data ∧
    memL "xyz".data ["xyz".data] = true ∧
    fastSearch argsCodeXyz [xyzEntry] = Except.ok [] :=
  ⟨rfl, rfl, rfl, rfl⟩

/-- C4.  A successful search returns at most `max_results` entries
(`max_results ≥ 1`), and once `max_results` results are filled the loop
has broken out: appending further candidates to the iteration sequence
does not change the result. -/
theorem c4_max_results_bound_and_early_exit
    (args : Json) (files extra : List FileEntry) (n : Nat) (r : List FileEntry)
    (hn : parsedMaxResults args = n) (hpos : 1 ≤ n)
    (hr : fastSearch args files = Except.ok r) :
    r.length ≤ n ∧ (r.length = n → fastSearch args (files ++ extra) = Except.ok r) := by
  subst hn
  cases hrx : regexCompile (patternToRegex (parsedPattern args)) with
  | none =>
      unfold fastSearch at hr
      rw [hrx] at hr
      simp at hr
  | some rx =>
      unfold fastSearch at hr
      rw [hrx] at hr
      injection hr with h
      subst h
      have hchar := searchLoop_take_eq
        (entryPass (parsedPathFilter args) rx (parsedExtensions args) (parsedDocType args))
        (parsedMaxResults args) files 0 (by omega)
      rw [Nat.sub_zero] at hchar
      constructor
      · rw [hchar, List.length_take]
        exact Nat.min_le_left _ _
      · intro hlen
        rw [hchar, List.length_take] at hlen
        have hge : parsedMaxResults args ≤
            (files.filter (entryPass (parsedPathFilter args) rx (parsedExtensions args)
              (parsedDocType args))).length := by
          rcases Nat.le_total (parsedMaxResults args)
            ((files.filter (entryPass (parsedPathFilter args) rx (parsedExtensions args)
              (parsedDocType args))).length) with hle | hle
          · exact hle
          · omega
        have hchar2 := searchLoop_take_eq
          (entryPass (parsedPathFilter args) rx (parsedExtensions args) (parsedDocType args))
          (parsedMaxResults args) (files ++ extra) 0 (by omega)
        rw [Nat.sub_zero] at hchar2
        unfold fastSearch
        rw [hrx, hchar]
        exact congrArg Except.ok
          (by rw [hchar2, List.filter_append, List.take_append_of_le_length hge])

/-- C4, witness.  With ascending store 5, 7, 11, 20 and `max_results` 3
the result has 3 ≤ 3 entries and is unchanged when a further candidate is
appended to the iteration sequence. -/
theorem c4_max_results_bound_and_early_exit_witness :
    ([logEntry 5, logEntry 7, logEntry 11] : List FileEntry).length ≤ 3 ∧
      fastSearch argsStarThree (storeAsc ++ [logEntry 99]) =
        Except.ok [logEntry 5, logEntry 7, logEntry 11] := by
  have h := c4_max_results_bound_and_early_exit argsStarThree storeAsc [logEntry 99] 3
    [logEntry 5, logEntry 7, logEntry 11] rfl (by decide) rfl
  exact ⟨h.1, h.2 (by decide)⟩

/-- C5.  After a clear, after a full cache load, and after a sequential
rebuild swap, every id appearing in the extension, name, or path index is
a key of the primary by-id map. -/
theorem c5_secondary_index_membership (s : Store) (pairs : List (Nat × FileEntry))
    (entries : List FileEntry) :
    storeInv (clearStore s) = true ∧ storeInv (loadCacheStore pairs) = true ∧
      storeInv (rebuildSequentialStore entries) = true :=
  ⟨rfl, storeInv_foldl_load pairs _ rfl, storeInv_foldl_rebuild entries _ rfl⟩

/-- C6.  The claim states that loading selects the newest matching cache
version.  The code refutes it: on a directory holding two complete saved
versions, `find_cache_files` collects nothing — the data file is looked
up under the extensionless stem (`with_extension("")`) which `save_cache`
never creates, and even with such files present the timestamp parse
strips the suffix `.meta` from a stem that never carries it — so
`load_cache` reports no cache available. -/
theorem c6_find_cache_files_returns_nothing :
    findCacheFiles cacheListing = [] ∧
    findCacheFiles (cacheListing ++ strs ["mft_cache_100", "mft_cache_200"]) = [] ∧
    loadCacheSelection cacheListing = none ∧
    dropEnd ".meta".data "mft_cache_200".data = none :=
  ⟨rfl, rfl, rfl, rfl⟩

/-- C7, counterexample.  The claim states that a sample above
1.1 × max_memory_fraction aborts the build with `OutOfMemory`.  The code
refutes it: at 95% used with the default fraction 0.8 the check clears
the cache and logs warnings but returns success (`Ok`), and the build
continues; no `OutOfMemory` error exists in the source. -/
theorem c7_over_limit_clears_without_error :
    checkMemoryLimits 0 100000 (4 / 5) 100 5 = ⟨true, true, none⟩ ∧
    ((100 - 5 : Nat) : ℚ) / (100 : ℚ) * 100 > (4 / 5) * (11 / 10) * 100 := by
  constructor
  · simp only [checkMemoryLimits]
    norm_num
  · norm_num

/-- C7, amended.  On a sampled check (counter divisible by the check
interval): above the limit a warning is logged; above 1.1 × the limit the
store is additionally cleared; the check always returns success, so the
build is never aborted. -/
theorem c7_memory_governor_characterization
    (fp M : Nat) (maxMem : ℚ) (total free : Nat) (_hM : 0 < M) :
    (checkMemoryLimits fp M maxMem total free).ret = none ∧
    ((checkMemoryLimits fp M maxMem total free).warned = true ↔
      (fp % M = 0 ∧ ((total - free : Nat) : ℚ) / (total : ℚ) * 100 > maxMem * 100)) ∧
    ((checkMemoryLimits fp M maxMem total free).cleared = true ↔
      (fp % M = 0 ∧ ((total - free : Nat) : ℚ) / (total : ℚ) * 100 > maxMem * 100 ∧
        ((total - free : Nat) : ℚ) / (total : ℚ) * 100 > maxMem * (11 / 10) * 100)) := by
  simp only [checkMemoryLimits]
  split_ifs with h1 h2 h3 <;> simp_all

/-- C7, witness.  The characterization instantiated at the
counterexample sample: 95% used against fraction 0.8 on a sampled
check. -/
theorem c7_memory_governor_characterization_witness :
    (checkMemoryLimits 0 100000 (4 / 5) 100 5).ret = none ∧
    ((checkMemoryLimits 0 100000 (4 / 5) 100 5).warned = true ↔
      (0 % 100000 = 0 ∧ ((100 - 5 : Nat) : ℚ) / (100 : ℚ) * 100 > (4 / 5) * 100)) ∧
    ((checkMemoryLimits 0 100000 (4 / 5) 100 5).cleared = true ↔
      (0 % 100000 = 0 ∧ ((100 - 5 : Nat) : ℚ) / (100 : ℚ) * 100 > (4 / 5) * 100 ∧
        ((100 - 5 : Nat) : ℚ) / (100 : ℚ) * 100 > (4 / 5) * (11 / 10) * 100)) :=
  c7_memory_governor_characterization 0 100000 (4 / 5) 100 5 (by decide)

set_option maxRecDepth 8192 in
/-- C8, counterexample.  The claim states only empty, over-1000-character
and `..` patterns are rejected.  The code measures `str::len`, which is
UTF-8 bytes: a 334-character pattern of three-byte characters (1002
bytes) is rejected as too long although it is well under 1000
characters, is not empty, and contains no `..`. -/
theorem c8_byte_length_counterexample :
    validatePattern (some widePattern) =
      Except.error "Pattern too long (max 1000 characters)".data ∧
    widePattern.length = 334 ∧
    utf8Len widePattern = 1002 ∧
    widePattern ≠ [] ∧
    containsSub "..".data widePattern = false := by
  refine ⟨rfl, rfl, rfl, by decide, rfl⟩

/-- C8, amended.  The pattern checks of `validate_search_args` accept a
present pattern exactly when it is non-empty, at most 1000 UTF-8 bytes
long (`str::len` counts bytes, not characters), and free of the
substring `..` (the `\..\` and `/../` disjuncts are subsumed). -/
theorem c8_pattern_checks_characterization (p : List Char) :
    validatePattern (some p) = Except.ok () ↔
      (p ≠ [] ∧ utf8Len p ≤ 1000 ∧ containsSub "..".data p = false) := by
  simp only [validatePattern]
  split_ifs with h1 h2 h3
  · apply iff_of_false (by simp)
    rintro ⟨hne, -, -⟩
    exact hne (List.isEmpty_iff.mp h1)
  · apply iff_of_false (by simp)
    rintro ⟨-, hlen, -⟩
    omega
  · apply iff_of_false (by simp)
    rintro ⟨-, -, hc⟩
    rcases Bool.or_eq_true_iff.mp h3 with h | h
    · rcases Bool.or_eq_true_iff.mp h with h | h
      · rw [h] at hc
        cases hc
      · have : "..".data <:+: p :=
          List.IsInfix.trans ⟨['\\'], ['\\'], rfl⟩ ((containsSub_iff _ p).mp h)
        rw [(containsSub_iff _ p).mpr this] at hc
        cases hc
    · have : "..".data <:+: p :=
        List.IsInfix.trans ⟨['/'], ['/'], rfl⟩ ((containsSub_iff _ p).mp h)
      rw [(containsSub_iff _ p).mpr this] at hc
      cases hc
  · apply iff_of_true rfl
    simp only [Bool.or_eq_true_iff, not_or, Bool.not_eq_true] at h3
    exact ⟨fun hn => h1 (by simp [hn]), by omega, h3.1.1⟩

/-- C9, counterexample.  The claim states the text class matches exactly
{txt, md, markdown, rtf, odt, doc, docx, tex, log} and in particular not
pdf.  The code's `EXTENSION_MAP` includes `pdf` in the text set, so `pdf`
is matched by the text class. -/
theorem c9_pdf_matched_by_text :
    extensionMatchesDocTypes "pdf".data [DocumentType.text] = true ∧
    memL "pdf".data
      (strs ["txt", "md", "markdown", "rtf", "odt", "doc", "docx", "tex", "log"]) = false :=
  ⟨rfl, rfl⟩

/-- C9, amended.  The text class matches an extension exactly when its
lower-casing belongs to {txt, md, markdown, rtf, odt, doc, docx, pdf,
tex, log} — the specified set plus pdf. -/
theorem c9_text_extensions_characterization (ext : List Char) :
    extensionMatchesDocTypes ext [DocumentType.text] =
      memL (lowerL ext)
        (strs ["txt", "md", "markdown", "rtf", "odt", "doc", "docx", "pdf", "tex", "log"]) := by
  simp [extensionMatchesDocTypes, docTypeExtensions]

/-- C10.  The service-side argument parse of `fast_search` is total: a
missing (or non-string) pattern silently becomes `*` and the search
succeeds, a missing drive becomes `C`, a missing `max_results` becomes
1000, and no pattern validation happens at this layer — the traversal
pattern `..` and the empty pattern are both scanned without error. -/
theorem c10_parse_defaults_and_totality (args : Json) (files : List FileEntry) :
    (asStr (jIndex args "pattern".data) = none →
      parsedPattern args = ['*'] ∧ ∃ r, fastSearch args files = Except.ok r) ∧
    (asStr (jIndex args "drive".data) = none → parsedDrive args = ['C']) ∧
    (asU64 (jIndex args "max_results".data) = none → parsedMaxResults args = 1000) ∧
    exceptIsOk (fastSearch argsTraversal files) = true ∧
    exceptIsOk (fastSearch argsEmptyPat files) = true := by
  refine ⟨?_, ?_, ?_, ?_, ?_⟩
  · intro h
    have hp : parsedPattern args = ['*'] := by
      simp [parsedPattern, h]
    refine ⟨hp, ?_⟩
    unfold fastSearch
    rw [hp]
    exact ⟨_, rfl⟩
  · intro h
    simp only [parsedDrive, h]
    rfl
  · intro h
    simp only [parsedMaxResults, h]
    rfl
  · rfl
  · rfl

/-- C10, witness.  The empty arguments object takes all three defaults
and the search succeeds. -/
theorem c10_parse_defaults_and_totality_witness :
    (parsedPattern argsNone = ['*'] ∧ ∃ r, fastSearch argsNone storeAsc = Except.ok r) ∧
    parsedDrive argsNone = ['C'] ∧ parsedMaxResults argsNone = 1000 := by
  have h := c10_parse_defaults_and_totality argsNone storeAsc
  exact ⟨h.1 rfl, h.2.1 rfl, h.2.2.1 rfl⟩

end FastSearch
